import Mathlib

/-!
Verification development for the sz-port API client (`src/ka-cctv-client.js`).

The repository contains two closely related JavaScript client files: a CCTV
client and an encryption client.  Both implement the same two-layer signed,
hybrid-encrypted request envelope.  Strings are modelled as lists of byte
values (`List Nat`, UTF-8 code units); machine words are `Nat` with explicit
reduction modulo `2 ^ 32` where the JavaScript code relies on 32-bit
semantics.  The external `sm-crypto` primitives (SM2 / SM3 / SM4) and the
`crypto` SHA-256 primitive are not part of the repository source; SM3, SM4
and SHA-256 are modelled by their published national/FIPS standard algorithms
(the spec calls them "a national-standard hash", "a national-standard block
cipher in CBC mode" and "a 256-bit cryptographic hash"), while SM2 public-key
encryption is kept abstract as a function parameter.
-/

/-- Uppercase an ASCII byte string, as JavaScript `toUpperCase` does on
ASCII: bytes in `[97,122]` are shifted down by 32, all others unchanged. -/
def upperAscii (s : List Nat) : List Nat :=
  s.map (fun c => if 97 ≤ c ∧ c ≤ 122 then c - 32 else c)

/-- Lowercase hex digit character for a nibble, as JavaScript `toString(16)`
and the sm-crypto hex rendering produce. -/
def hexChar (n : Nat) : Nat :=
  if n < 10 then 48 + n else 87 + n

/-- Hex-encode a byte list to the character codes of its lowercase hex
rendering (two characters per byte). -/
def hexEnc : List Nat → List Nat
  | [] => []
  | b :: r => hexChar (b / 16) :: hexChar (b % 16) :: hexEnc r

/-- Numeric value of a hex digit character (accepting both cases), 0 for
anything else, following `parseInt(c, 16)` on well-formed input. -/
def hexVal (c : Nat) : Nat :=
  if 48 ≤ c ∧ c ≤ 57 then c - 48
  else if 97 ≤ c ∧ c ≤ 102 then c - 87
  else if 65 ≤ c ∧ c ≤ 70 then c - 55
  else 0

/-- Parse a hex character string into bytes, two characters at a time,
dropping a dangling odd character as sm-crypto's `hexToArray` does. -/
def hexDec : List Nat → List Nat
  | c1 :: c2 :: r => (hexVal c1 * 16 + hexVal c2) :: hexDec r
  | _ => []

/-- Big-endian combination of four bytes into a 32-bit word. -/
def combine4 (a b c d : Nat) : Nat :=
  ((a * 256 + b) * 256 + c) * 256 + d

/-- Big-endian decomposition of a 32-bit word into four bytes. -/
def wordBytes (w : Nat) : List Nat :=
  [w / 16777216 % 256, w / 65536 % 256, w / 256 % 256, w % 256]

/-- 32-bit left rotation (rotation amount taken mod 32, matching the
JavaScript `x << n | x >>> (32 - n)` idiom on 32-bit values). -/
def rotl32 (x n0 : Nat) : Nat :=
  let n := n0 % 32
  ((x <<< n) % 4294967296) ||| ((x % 4294967296) >>> (32 - n))

/-- 32-bit complement. -/
def not32 (x : Nat) : Nat := (x % 4294967296) ^^^ 4294967295

/-- Decimal digit characters of a natural number (fuelled; `decDigits`
below supplies sufficient fuel), matching JavaScript number-to-string
conversion for non-negative integers. -/
def decDigitsF : Nat → Nat → List Nat
  | 0, _ => []
  | fuel + 1, n => if n < 10 then [48 + n] else decDigitsF fuel (n / 10) ++ [48 + n % 10]

/-- Decimal digit characters of a natural number. -/
def decDigits (n : Nat) : List Nat := decDigitsF (n + 1) n

/-- Split a list into chunks of `n` elements (fuelled; one unit of fuel per
chunk; callers pass the list length, which always suffices). -/
def chunksF (n : Nat) : Nat → List Nat → List (List Nat)
  | 0, _ => []
  | _ + 1, [] => []
  | fuel + 1, x :: r => (x :: r).take n :: chunksF n fuel ((x :: r).drop n)

/-- Left-pad with `0` characters to the requested length, as JavaScript
`padStart(length, '0')`. -/
def padZeros (len : Nat) (s : List Nat) : List Nat :=
  List.replicate (len - s.length) 48 ++ s

-- ==================== supporting lemmas on the utilities ====================

theorem xor_lt_two_pow {x y n : Nat} (hx : x < 2 ^ n) (hy : y < 2 ^ n) :
    x ^^^ y < 2 ^ n := by
  have h := Nat.bitwise_lt (f := bne) hx hy
  simpa [HXor.hXor, Xor.xor, Nat.xor] using h

theorem or_lt_two_pow {x y n : Nat} (hx : x < 2 ^ n) (hy : y < 2 ^ n) :
    x ||| y < 2 ^ n := by
  have h := Nat.bitwise_lt (f := or) hx hy
  simpa [HOr.hOr, OrOp.or, Nat.lor] using h

theorem two_pow_32 : (2 : Nat) ^ 32 = 4294967296 := by norm_num

theorem rotl32_lt (x n0 : Nat) : rotl32 x n0 < 4294967296 := by
  unfold rotl32
  rw [← two_pow_32]
  apply or_lt_two_pow
  · rw [two_pow_32]; exact Nat.mod_lt _ (by norm_num)
  · calc (x % 4294967296) >>> (32 - n0 % 32) ≤ x % 4294967296 := by
          rw [Nat.shiftRight_eq_div_pow]; exact Nat.div_le_self _ _
      _ < 2 ^ 32 := by rw [two_pow_32]; exact Nat.mod_lt _ (by norm_num)

theorem xor_lt_word {x y : Nat} (hx : x < 4294967296) (hy : y < 4294967296) :
    x ^^^ y < 4294967296 := by
  rw [← two_pow_32] at hx hy ⊢
  exact xor_lt_two_pow hx hy

theorem xor_lt_byte {x y : Nat} (hx : x < 256) (hy : y < 256) :
    x ^^^ y < 256 := by
  have h256 : (256 : Nat) = 2 ^ 8 := by norm_num
  rw [h256] at hx hy ⊢
  exact xor_lt_two_pow hx hy

theorem combine4_lt {a b c d : Nat} (ha : a < 256) (hb : b < 256)
    (hc : c < 256) (hd : d < 256) : combine4 a b c d < 4294967296 := by
  unfold combine4
  omega

theorem wordBytes_length (w : Nat) : (wordBytes w).length = 4 := rfl

theorem wordBytes_lt (w : Nat) : ∀ x ∈ wordBytes w, x < 256 := by
  intro x hx
  simp only [wordBytes, List.mem_cons, List.not_mem_nil, or_false] at hx
  rcases hx with h | h | h | h <;> subst h <;> omega

theorem getD_lt {l : List Nat} (h : ∀ x ∈ l, x < 256) (i : Nat) :
    l.getD i 0 < 256 := by
  rcases hg : l[i]? with _ | x
  · simp [List.getD, hg]
  · have := h x (List.getElem?_mem hg)
    simpa [List.getD, hg] using this

theorem hexEnc_length (l : List Nat) : (hexEnc l).length = 2 * l.length := by
  induction l with
  | nil => rfl
  | cons b r ih => simp [hexEnc, ih]; omega

theorem hexVal_hexChar {n : Nat} (h : n < 16) : hexVal (hexChar n) = n := by
  interval_cases n <;> rfl

theorem hexDec_hexEnc {l : List Nat} (h : ∀ x ∈ l, x < 256) :
    hexDec (hexEnc l) = l := by
  induction l with
  | nil => rfl
  | cons b r ih =>
    have hb : b < 256 := h b (by simp)
    have hhi : b / 16 < 16 := by omega
    have hlo : b % 16 < 16 := by omega
    simp only [hexEnc, hexDec, hexVal_hexChar hhi, hexVal_hexChar hlo]
    rw [ih (fun x hx => h x (by simp [hx]))]
    congr 1
    omega

theorem hexEnc_lower {l : List Nat} (h : ∀ x ∈ l, x < 256) :
    ∀ c ∈ hexEnc l, (48 ≤ c ∧ c ≤ 57) ∨ (97 ≤ c ∧ c ≤ 102) := by
  induction l with
  | nil => intro c hc; simp [hexEnc] at hc
  | cons b r ih =>
    intro c hc
    have hb : b < 256 := h b (by simp)
    simp only [hexEnc, List.mem_cons] at hc
    rcases hc with h1 | h1 | h1
    · subst h1; unfold hexChar; split <;> omega
    · subst h1; unfold hexChar; split <;> omega
    · exact ih (fun x hx => h x (by simp [hx])) c h1

theorem upperAscii_of_lower_hex {l : List Nat}
    (h : ∀ c ∈ l, (48 ≤ c ∧ c ≤ 57) ∨ (97 ≤ c ∧ c ≤ 102)) :
    ∀ c ∈ upperAscii l, (48 ≤ c ∧ c ≤ 57) ∨ (65 ≤ c ∧ c ≤ 70) := by
  intro c hc
  simp only [upperAscii, List.mem_map] at hc
  obtain ⟨a, ha, rfl⟩ := hc
  rcases h a ha with h1 | h1 <;> split <;> omega

theorem upperAscii_length (l : List Nat) : (upperAscii l).length = l.length := by
  simp [upperAscii]

-- ==================== SM4 block cipher ====================
-- Modelled from the spec: the symmetric primitive used by `sm4Encrypt` /
-- `sm4Decrypt` lives in the external `sm-crypto` package (not under src/);
-- the spec identifies it as the national-standard block cipher in CBC mode
-- with PKCS#5 padding, i.e. SM4 (GB/T 32907-2016), embedded here in full.

def sm4SboxTable : List Nat := [
  214, 144, 233, 254, 204, 225, 61, 183, 22, 182, 20, 194, 40, 251, 44, 5,
  43, 103, 154, 118, 42, 190, 4, 195, 170, 68, 19, 38, 73, 134, 6, 153,
  156, 66, 80, 244, 145, 239, 152, 122, 51, 84, 11, 67, 237, 207, 172, 98,
  228, 179, 28, 169, 201, 8, 232, 149, 128, 223, 148, 250, 117, 143, 63, 166,
  71, 7, 167, 252, 243, 115, 23, 186, 131, 89, 60, 25, 230, 133, 79, 168,
  104, 107, 129, 178, 113, 100, 218, 139, 248, 235, 15, 75, 112, 86, 157, 53,
  30, 36, 14, 94, 99, 88, 209, 162, 37, 34, 124, 59, 1, 33, 120, 135,
  212, 0, 70, 87, 159, 211, 39, 82, 76, 54, 2, 231, 160, 196, 200, 158,
  234, 191, 138, 210, 64, 199, 56, 181, 163, 247, 242, 206, 249, 97, 21, 161,
  224, 174, 93, 164, 155, 52, 26, 85, 173, 147, 50, 48, 245, 140, 177, 227,
  29, 246, 226, 46, 130, 102, 202, 96, 192, 41, 35, 171, 13, 83, 78, 111,
  213, 219, 55, 69, 222, 253, 142, 47, 3, 255, 106, 114, 109, 108, 91, 81,
  141, 27, 175, 146, 187, 221, 188, 127, 17, 217, 92, 65, 31, 16, 90, 216,
  10, 193, 49, 136, 165, 205, 123, 189, 45, 116, 208, 18, 184, 229, 180, 176,
  137, 105, 151, 74, 12, 150, 119, 126, 101, 185, 241, 9, 197, 110, 198, 132,
  24, 240, 125, 236, 58, 220, 77, 32, 121, 238, 95, 62, 215, 203, 57, 72
]

def sm4CkList : List Nat := [
  462357, 472066609, 943670861, 1415275113,
  1886879365, 2358483617, 2830087869, 3301692121,
  3773296373, 4228057617, 404694573, 876298825,
  1347903077, 1819507329, 2291111581, 2762715833,
  3234320085, 3705924337, 4177462797, 337322537,
  808926789, 1280531041, 1752135293, 2223739545,
  2695343797, 3166948049, 3638552301, 4110090761,
  269950501, 741554753, 1213159005, 1684763257
]

/-- S-box lookup on a byte value. -/
def sm4Sbox (b : Nat) : Nat := sm4SboxTable.getD (b % 256) 0

/-- Nonlinear byte substitution applied to the four bytes of a word. -/
def sm4Tau (x : Nat) : Nat :=
  combine4 (sm4Sbox (x / 16777216 % 256)) (sm4Sbox (x / 65536 % 256))
    (sm4Sbox (x / 256 % 256)) (sm4Sbox (x % 256))

/-- Linear diffusion for the round function. -/
def sm4L (b : Nat) : Nat :=
  b ^^^ rotl32 b 2 ^^^ rotl32 b 10 ^^^ rotl32 b 18 ^^^ rotl32 b 24

/-- Linear diffusion for the key schedule. -/
def sm4Lk (b : Nat) : Nat := b ^^^ rotl32 b 13 ^^^ rotl32 b 23

/-- Round transform `T = L ∘ τ`. -/
def sm4T (x : Nat) : Nat := sm4L (sm4Tau x)

/-- Key-schedule transform. -/
def sm4Tk (x : Nat) : Nat := sm4Lk (sm4Tau x)

/-- Cipher state: four 32-bit words. -/
def Sm4Quad : Type := Nat × Nat × Nat × Nat

/-- One SM4 round (also the key-schedule step shape). -/
def sm4Round (st : Sm4Quad) (rk : Nat) : Sm4Quad :=
  match st with
  | (a, b, c, d) => (b, c, d, a ^^^ sm4T (b ^^^ c ^^^ d ^^^ rk))

/-- Reversal of the four state words, applied after the 32 rounds. -/
def revQuad (st : Sm4Quad) : Sm4Quad :=
  match st with
  | (a, b, c, d) => (d, c, b, a)

/-- Key-schedule iteration producing the 32 round keys. -/
def sm4LoopKeys : Sm4Quad → List Nat → List Nat
  | _, [] => []
  | (k0, k1, k2, k3), ck :: cks =>
    let nk := k0 ^^^ sm4Tk (k1 ^^^ k2 ^^^ k3 ^^^ ck)
    nk :: sm4LoopKeys (k1, k2, k3, nk) cks

/-- Big-endian packing of a 16-byte block into the four state words. -/
def bytesQuad (l : List Nat) : Sm4Quad :=
  (combine4 (l.getD 0 0) (l.getD 1 0) (l.getD 2 0) (l.getD 3 0),
   combine4 (l.getD 4 0) (l.getD 5 0) (l.getD 6 0) (l.getD 7 0),
   combine4 (l.getD 8 0) (l.getD 9 0) (l.getD 10 0) (l.getD 11 0),
   combine4 (l.getD 12 0) (l.getD 13 0) (l.getD 14 0) (l.getD 15 0))

/-- Big-endian unpacking of the four state words into a 16-byte block. -/
def quadBytes (q : Sm4Quad) : List Nat :=
  match q with
  | (a, b, c, d) => wordBytes a ++ wordBytes b ++ wordBytes c ++ wordBytes d

/-- The 32 round keys derived from a 16-byte key. -/
def sm4Rks (key : List Nat) : List Nat :=
  match bytesQuad key with
  | (m0, m1, m2, m3) =>
    sm4LoopKeys (m0 ^^^ 2746333894, m1 ^^^ 1453994832,
                 m2 ^^^ 1736282519, m3 ^^^ 2993693404) sm4CkList

/-- 32 encryption rounds followed by the word reversal. -/
def sm4EncW (rks : List Nat) (q : Sm4Quad) : Sm4Quad :=
  revQuad (rks.foldl sm4Round q)

/-- Decryption: the same rounds with the round keys reversed. -/
def sm4DecW (rks : List Nat) (q : Sm4Quad) : Sm4Quad :=
  revQuad (rks.reverse.foldl sm4Round q)

/-- Encrypt one 16-byte block. -/
def encryptBlock (rks : List Nat) (b : List Nat) : List Nat :=
  quadBytes (sm4EncW rks (bytesQuad b))

/-- Decrypt one 16-byte block. -/
def decryptBlock (rks : List Nat) (b : List Nat) : List Nat :=
  quadBytes (sm4DecW rks (bytesQuad b))

/-- Byte-wise xor of two equal-length blocks. -/
def xorBytes (a b : List Nat) : List Nat := List.zipWith (fun x y => x ^^^ y) a b

/-- CBC encryption over a list of 16-byte plaintext blocks. -/
def cbcEncrypt (rks : List Nat) : List Nat → List (List Nat) → List (List Nat)
  | _, [] => []
  | prev, p :: ps =>
    let c := encryptBlock rks (xorBytes p prev)
    c :: cbcEncrypt rks c ps

/-- CBC decryption over a list of 16-byte ciphertext blocks. -/
def cbcDecrypt (rks : List Nat) : List Nat → List (List Nat) → List (List Nat)
  | _, [] => []
  | prev, c :: cs => xorBytes (decryptBlock rks c) prev :: cbcDecrypt rks c cs

/-- PKCS#5 padding to a 16-byte multiple. -/
def pkcs5Pad (l : List Nat) : List Nat :=
  let n := 16 - l.length % 16
  l ++ List.replicate n n

/-- PKCS#5 unpadding: drop as many trailing bytes as the last byte says. -/
def pkcs5Unpad (l : List Nat) : List Nat :=
  l.take (l.length - (l.getLast?.getD 0))

/-- Split a byte list into 16-byte blocks. -/
def chunks16 (l : List Nat) : List (List Nat) := chunksF 16 l.length l

-- ==================== SM4 round-trip lemmas ====================

theorem revQuad_revQuad (q : Sm4Quad) : revQuad (revQuad q) = q := by
  obtain ⟨a, b, c, d⟩ := q
  rfl

theorem xor_swap13 (x y z : Nat) : z ^^^ y ^^^ x = x ^^^ y ^^^ z := by
  rw [Nat.xor_comm z y, Nat.xor_assoc, Nat.xor_comm z x, ← Nat.xor_assoc,
    Nat.xor_comm y x]

theorem sm4Round_inv (q : Sm4Quad) (rk : Nat) :
    sm4Round (revQuad (sm4Round q rk)) rk = revQuad q := by
  obtain ⟨a, b, c, d⟩ := q
  simp only [sm4Round, revQuad, Prod.mk.injEq, true_and]
  rw [xor_swap13 b c d, Nat.xor_cancel_right]

theorem sm4_fold_inv (rks : List Nat) :
    ∀ q : Sm4Quad,
      rks.reverse.foldl sm4Round (revQuad (rks.foldl sm4Round q)) = revQuad q := by
  induction rks with
  | nil => intro q; rfl
  | cons r rs ih =>
    intro q
    simp only [List.reverse_cons, List.foldl_append, List.foldl_cons, List.foldl_nil]
    rw [ih (sm4Round q r)]
    exact sm4Round_inv q r

theorem sm4DecW_sm4EncW (rks : List Nat) (q : Sm4Quad) :
    sm4DecW rks (sm4EncW rks q) = q := by
  unfold sm4DecW sm4EncW
  rw [sm4_fold_inv rks q, revQuad_revQuad]

/-- Boundedness predicate for the cipher state. -/
def quadLt (q : Sm4Quad) : Prop :=
  match q with
  | (a, b, c, d) => a < 4294967296 ∧ b < 4294967296 ∧ c < 4294967296 ∧ d < 4294967296

set_option maxRecDepth 2048 in
theorem sm4Sbox_lt (b : Nat) : sm4Sbox b < 256 := by
  unfold sm4Sbox
  apply getD_lt
  decide

theorem sm4Tau_lt (x : Nat) : sm4Tau x < 4294967296 := by
  unfold sm4Tau
  exact combine4_lt (sm4Sbox_lt _) (sm4Sbox_lt _) (sm4Sbox_lt _) (sm4Sbox_lt _)

theorem sm4T_lt (x : Nat) : sm4T x < 4294967296 := by
  unfold sm4T sm4L
  exact xor_lt_word (xor_lt_word (xor_lt_word (xor_lt_word (sm4Tau_lt x)
    (rotl32_lt _ _)) (rotl32_lt _ _)) (rotl32_lt _ _)) (rotl32_lt _ _)

theorem sm4Round_bound {q : Sm4Quad} (h : quadLt q) (rk : Nat) :
    quadLt (sm4Round q rk) := by
  obtain ⟨a, b, c, d⟩ := q
  obtain ⟨ha, hb, hc, hd⟩ := h
  exact ⟨hb, hc, hd, xor_lt_word ha (sm4T_lt _)⟩

theorem sm4_foldl_bound (rks : List Nat) :
    ∀ q : Sm4Quad, quadLt q → quadLt (rks.foldl sm4Round q) := by
  induction rks with
  | nil => intro q h; exact h
  | cons r rs ih =>
    intro q h
    exact ih _ (sm4Round_bound h r)

theorem revQuad_bound {q : Sm4Quad} (h : quadLt q) : quadLt (revQuad q) := by
  obtain ⟨a, b, c, d⟩ := q
  obtain ⟨ha, hb, hc, hd⟩ := h
  exact ⟨hd, hc, hb, ha⟩

theorem bytesQuad_bound {l : List Nat} (h : ∀ x ∈ l, x < 256) :
    quadLt (bytesQuad l) := by
  unfold bytesQuad
  exact ⟨combine4_lt (getD_lt h 0) (getD_lt h 1) (getD_lt h 2) (getD_lt h 3),
    combine4_lt (getD_lt h 4) (getD_lt h 5) (getD_lt h 6) (getD_lt h 7),
    combine4_lt (getD_lt h 8) (getD_lt h 9) (getD_lt h 10) (getD_lt h 11),
    combine4_lt (getD_lt h 12) (getD_lt h 13) (getD_lt h 14) (getD_lt h 15)⟩

theorem quadBytes_length (q : Sm4Quad) : (quadBytes q).length = 16 := by
  obtain ⟨a, b, c, d⟩ := q
  rfl

theorem quadBytes_lt (q : Sm4Quad) : ∀ x ∈ quadBytes q, x < 256 := by
  obtain ⟨a, b, c, d⟩ := q
  intro x hx
  simp only [quadBytes, List.mem_append] at hx
  rcases hx with ((h | h) | h) | h <;> exact wordBytes_lt _ x h

theorem bytesQuad_quadBytes {q : Sm4Quad} (h : quadLt q) :
    bytesQuad (quadBytes q) = q := by
  obtain ⟨a, b, c, d⟩ := q
  obtain ⟨ha, hb, hc, hd⟩ := h
  simp only [quadBytes, wordBytes, bytesQuad, List.cons_append, List.nil_append,
    List.getD, List.getElem?_cons_zero, List.getElem?_cons_succ, Option.getD_some,
    combine4]
  refine Prod.ext ?_ (Prod.ext ?_ (Prod.ext ?_ ?_)) <;> simp <;> omega

theorem list_eq_sixteen (l : List Nat) (h : l.length = 16) :
    l = [l.getD 0 0, l.getD 1 0, l.getD 2 0, l.getD 3 0, l.getD 4 0, l.getD 5 0,
      l.getD 6 0, l.getD 7 0, l.getD 8 0, l.getD 9 0, l.getD 10 0, l.getD 11 0,
      l.getD 12 0, l.getD 13 0, l.getD 14 0, l.getD 15 0] := by
  apply List.ext_getElem
  · rw [h]; rfl
  · intro i h1 h2
    have h16 : i < 16 := by rw [h] at h1; exact h1
    interval_cases i <;> exact (List.getD_eq_getElem l 0 (by omega)).symm

theorem quadBytes_bytesQuad {l : List Nat} (hlen : l.length = 16)
    (h : ∀ x ∈ l, x < 256) : quadBytes (bytesQuad l) = l := by
  have h0 := getD_lt h 0
  have h1 := getD_lt h 1
  have h2 := getD_lt h 2
  have h3 := getD_lt h 3
  have h4 := getD_lt h 4
  have h5 := getD_lt h 5
  have h6 := getD_lt h 6
  have h7 := getD_lt h 7
  have h8 := getD_lt h 8
  have h9 := getD_lt h 9
  have h10 := getD_lt h 10
  have h11 := getD_lt h 11
  have h12 := getD_lt h 12
  have h13 := getD_lt h 13
  have h14 := getD_lt h 14
  have h15 := getD_lt h 15
  conv_rhs => rw [list_eq_sixteen l hlen]
  simp only [bytesQuad, quadBytes, wordBytes, combine4, List.cons_append,
    List.nil_append, List.cons.injEq, and_true]
  refine ⟨?_, ?_, ?_, ?_, ?_, ?_, ?_, ?_, ?_, ?_, ?_, ?_, ?_, ?_, ?_, ?_⟩ <;> omega

theorem decryptBlock_encryptBlock (rks : List Nat) {b : List Nat}
    (hlen : b.length = 16) (hb : ∀ x ∈ b, x < 256) :
    decryptBlock rks (encryptBlock rks b) = b := by
  unfold decryptBlock encryptBlock
  have hq : quadLt (sm4EncW rks (bytesQuad b)) := by
    unfold sm4EncW
    exact revQuad_bound (sm4_foldl_bound rks _ (bytesQuad_bound hb))
  rw [bytesQuad_quadBytes hq, sm4DecW_sm4EncW, quadBytes_bytesQuad hlen hb]

theorem encryptBlock_length (rks : List Nat) (b : List Nat) :
    (encryptBlock rks b).length = 16 := quadBytes_length _

theorem encryptBlock_lt (rks : List Nat) (b : List Nat) :
    ∀ x ∈ encryptBlock rks b, x < 256 := quadBytes_lt _

-- ==================== CBC, padding and chunking lemmas ====================

theorem xorBytes_length (a b : List Nat) :
    (xorBytes a b).length = min a.length b.length := by
  simp [xorBytes]

theorem xorBytes_lt {a b : List Nat} (ha : ∀ x ∈ a, x < 256)
    (hb : ∀ x ∈ b, x < 256) : ∀ x ∈ xorBytes a b, x < 256 := by
  intro x hx
  simp only [xorBytes, List.mem_iff_getElem, List.getElem_zipWith] at hx
  obtain ⟨i, hi, rfl⟩ := hx
  simp only [List.length_zipWith, lt_min_iff] at hi
  exact xor_lt_byte (ha _ (List.getElem_mem hi.1)) (hb _ (List.getElem_mem hi.2))

theorem xorBytes_cancel {a b : List Nat} (h : a.length = b.length) :
    xorBytes (xorBytes a b) b = a := by
  induction a generalizing b with
  | nil => simp [xorBytes]
  | cons x r ih =>
    rcases b with _ | ⟨y, s⟩
    · simp at h
    · simp only [xorBytes, List.zipWith_cons_cons, List.cons.injEq]
      exact ⟨Nat.xor_cancel_right y x, ih (by simpa using h)⟩

/-- All blocks produced by CBC encryption are well-formed 16-byte blocks. -/
theorem cbcEncrypt_blocks (rks : List Nat) :
    ∀ (ps : List (List Nat)) (prev : List Nat),
      ∀ c ∈ cbcEncrypt rks prev ps, c.length = 16 ∧ ∀ x ∈ c, x < 256 := by
  intro ps
  induction ps with
  | nil => intro prev c hc; simp [cbcEncrypt] at hc
  | cons p ps ih =>
    intro prev c hc
    simp only [cbcEncrypt, List.mem_cons] at hc
    rcases hc with rfl | hc
    · exact ⟨encryptBlock_length _ _, encryptBlock_lt _ _⟩
    · exact ih _ c hc

theorem cbcDecrypt_cbcEncrypt (rks : List Nat) :
    ∀ (ps : List (List Nat)) (prev : List Nat),
      (∀ p ∈ ps, p.length = 16 ∧ ∀ x ∈ p, x < 256) →
      prev.length = 16 → (∀ x ∈ prev, x < 256) →
      cbcDecrypt rks prev (cbcEncrypt rks prev ps) = ps := by
  intro ps
  induction ps with
  | nil => intro prev _ _ _; rfl
  | cons p ps ih =>
    intro prev hps hprevLen hprevLt
    obtain ⟨hpLen, hpLt⟩ := hps p (by simp)
    have hxLen : (xorBytes p prev).length = 16 := by
      rw [xorBytes_length, hpLen, hprevLen]
      exact Nat.min_self 16
    have hxLt : ∀ x ∈ xorBytes p prev, x < 256 := xorBytes_lt hpLt hprevLt
    simp only [cbcEncrypt, cbcDecrypt, List.cons.injEq]
    constructor
    · rw [decryptBlock_encryptBlock rks hxLen hxLt]
      exact xorBytes_cancel (by rw [hpLen, hprevLen])
    · exact ih _ (fun q hq => hps q (by simp [hq]))
        (encryptBlock_length _ _) (encryptBlock_lt _ _)

theorem chunksF_flatten_of_blocks :
    ∀ (bs : List (List Nat)) (fuel : Nat), bs.length ≤ fuel →
      (∀ b ∈ bs, b.length = 16) → chunksF 16 fuel bs.flatten = bs := by
  intro bs
  induction bs with
  | nil =>
    intro fuel _ _
    cases fuel <;> rfl
  | cons b bs ih =>
    intro fuel hfuel hlen
    have hb : b.length = 16 := hlen b (by simp)
    rcases fuel with _ | fuel
    · simp at hfuel
    have hne : b ++ bs.flatten ≠ [] := by
      intro h
      have := congrArg List.length h
      simp [hb] at this
    simp only [List.flatten_cons]
    rcases hcons : b ++ bs.flatten with _ | ⟨x, r⟩
    · exact absurd hcons hne
    rw [show chunksF 16 (fuel + 1) (x :: r) =
        (x :: r).take 16 :: chunksF 16 fuel ((x :: r).drop 16) from rfl, ← hcons,
      List.take_left' hb, List.drop_left' hb]
    rw [ih fuel (by simpa using hfuel) (fun q hq => hlen q (by simp [hq]))]

theorem flatten_chunksF :
    ∀ (fuel : Nat) (l : List Nat), l.length ≤ fuel →
      (chunksF 16 fuel l).flatten = l := by
  intro fuel
  induction fuel with
  | zero =>
    intro l h
    rw [Nat.le_zero] at h
    rw [List.eq_nil_of_length_eq_zero h]
    rfl
  | succ fuel ih =>
    intro l h
    rcases l with _ | ⟨x, r⟩
    · rfl
    · simp only [chunksF, List.flatten_cons]
      rw [ih _ (by simp at h ⊢; omega), List.take_append_drop]

theorem chunksF_length16 :
    ∀ (fuel : Nat) (l : List Nat), 16 ∣ l.length →
      ∀ b ∈ chunksF 16 fuel l, b.length = 16 := by
  intro fuel
  induction fuel with
  | zero => intro l _ b hb; simp [chunksF] at hb
  | succ fuel ih =>
    intro l hdvd b hb
    rcases l with _ | ⟨x, r⟩
    · simp [chunksF] at hb
    · obtain ⟨k, hk⟩ := hdvd
      have hk1 : 1 ≤ k := by
        rcases k with _ | k
        · simp at hk
        · omega
      have hlen16 : 16 ≤ (x :: r).length := by omega
      simp only [chunksF, List.mem_cons] at hb
      rcases hb with rfl | hb
      · rw [List.length_take]
        omega
      · refine ih _ ⟨k - 1, ?_⟩ b hb
        rw [List.length_drop]
        omega

theorem chunksF_mem_mem :
    ∀ (fuel : Nat) (l : List Nat) (b : List Nat), b ∈ chunksF 16 fuel l →
      ∀ x ∈ b, x ∈ l := by
  intro fuel
  induction fuel with
  | zero => intro l b hb; simp [chunksF] at hb
  | succ fuel ih =>
    intro l b hb x hx
    rcases l with _ | ⟨y, r⟩
    · simp [chunksF] at hb
    · simp only [chunksF, List.mem_cons] at hb
      rcases hb with rfl | hb
      · exact List.take_subset _ _ hx
      · exact List.drop_subset _ _ (ih _ b hb x hx)

theorem pkcs5Pad_length (l : List Nat) :
    (pkcs5Pad l).length = l.length + (16 - l.length % 16) := by
  simp [pkcs5Pad]

theorem pkcs5Pad_dvd (l : List Nat) : 16 ∣ (pkcs5Pad l).length := by
  rw [pkcs5Pad_length]
  have := Nat.mod_lt l.length (y := 16) (by norm_num)
  have hmod := Nat.div_add_mod l.length 16
  refine ⟨l.length / 16 + 1, by omega⟩

theorem pkcs5Pad_lt {l : List Nat} (h : ∀ x ∈ l, x < 256) :
    ∀ x ∈ pkcs5Pad l, x < 256 := by
  intro x hx
  simp only [pkcs5Pad, List.mem_append, List.mem_replicate] at hx
  rcases hx with hx | ⟨_, rfl⟩
  · exact h x hx
  · omega

theorem getLast?_replicate_succ (m v : Nat) :
    (List.replicate (m + 1) v).getLast? = some v := by
  rw [List.replicate_succ', List.getLast?_concat]

theorem pkcs5Unpad_pkcs5Pad (l : List Nat) : pkcs5Unpad (pkcs5Pad l) = l := by
  have hn : 1 ≤ 16 - l.length % 16 := by
    have := Nat.mod_lt l.length (y := 16) (by norm_num)
    omega
  unfold pkcs5Unpad pkcs5Pad
  rcases hrep : 16 - l.length % 16 with _ | m
  · omega
  · rw [List.getLast?_append_of_ne_nil _ (by simp)]
    rw [getLast?_replicate_succ]
    simp only [Option.getD_some, List.length_append, List.length_replicate]
    rw [Nat.add_sub_cancel, List.take_left]

-- ==================== JSON values ====================
-- Modelled from the spec: `JSON.stringify` / `JSON.parse` are JavaScript
-- builtins, not repository code; JSON values and their canonical
-- serialization are embedded in the standard way (object-key and string
-- payloads are byte lists).

inductive Json where
  | jnull : Json
  | jbool : Bool → Json
  | jnum : Int → Json
  | jstr : List Nat → Json
  | jarr : List Json → Json
  | jobj : List (List Nat × Json) → Json

/-- JSON string escaping for quote and backslash bytes. -/
def escapeByte (b : Nat) : List Nat :=
  if b = 34 ∨ b = 92 then [92, b] else [b]

/-- Decimal rendering of an integer. -/
def intDigits (n : Int) : List Nat :=
  if n < 0 then 45 :: decDigits n.natAbs else decDigits n.natAbs

mutual

/-- Canonical JSON serialization (`JSON.stringify`), as byte list. -/
def jsonStr : Json → List Nat
  | .jnull => [110, 117, 108, 108]
  | .jbool true => [116, 114, 117, 101]
  | .jbool false => [102, 97, 108, 115, 101]
  | .jnum n => intDigits n
  | .jstr s => 34 :: (s.flatMap escapeByte ++ [34])
  | .jarr xs => 91 :: (jsonStrArr xs ++ [93])
  | .jobj fs => 123 :: (jsonStrObj fs ++ [125])

/-- Comma-separated serialization of array elements. -/
def jsonStrArr : List Json → List Nat
  | [] => []
  | [x] => jsonStr x
  | x :: y :: xs => jsonStr x ++ 44 :: jsonStrArr (y :: xs)

/-- Comma-separated serialization of object fields. -/
def jsonStrObj : List (List Nat × Json) → List Nat
  | [] => []
  | [(k, v)] => (34 :: (k.flatMap escapeByte ++ [34, 58])) ++ jsonStr v
  | (k, v) :: f :: fs =>
    (34 :: (k.flatMap escapeByte ++ [34, 58])) ++ jsonStr v ++ 44 :: jsonStrObj (f :: fs)

end

/-- Plaintext argument of `sm4Encrypt`: a string or a JSON-serializable
object (`typeof data === 'string' ? data : JSON.stringify(data)`). -/
inductive Sm4Data where
  | str : List Nat → Sm4Data
  | obj : Json → Sm4Data

/-- The byte string actually encrypted: the string itself, or the canonical
JSON serialization of the object. -/
def sm4DataBytes : Sm4Data → List Nat
  | .str s => s
  | .obj j => jsonStr j

-- ==================== sm4Encrypt / sm4Decrypt (src lines 118-136) ====================

/-- `sm4Encrypt(data, key, iv)`: stringify non-string data, pad (PKCS#5),
encrypt in CBC mode under the 16-byte key and iv, and render the ciphertext
as a hex character string.  `key` and `iv` are the byte forms of the
32-hex-character strings the JavaScript passes to sm-crypto. -/
def sm4Encrypt (data : Sm4Data) (key iv : List Nat) : List Nat :=
  hexEnc (cbcEncrypt (sm4Rks key) iv (chunks16 (pkcs5Pad (sm4DataBytes data)))).flatten

/-- `sm4Decrypt(ciphertext, key, iv)`: parse the hex ciphertext, decrypt in
CBC mode, and strip the PKCS#5 padding. -/
def sm4Decrypt (ciphertext key iv : List Nat) : List Nat :=
  pkcs5Unpad (cbcDecrypt (sm4Rks key) iv (chunks16 (hexDec ciphertext))).flatten

theorem chunks16_flatten_of_blocks {bs : List (List Nat)}
    (h : ∀ b ∈ bs, b.length = 16) (hle : bs.length ≤ bs.flatten.length) :
    chunks16 bs.flatten = bs :=
  chunksF_flatten_of_blocks bs _ hle h

theorem flatten_chunks16 (l : List Nat) : (chunks16 l).flatten = l :=
  flatten_chunksF _ _ (Nat.le_refl _)

/-- C1: For every plaintext (a string, or a JSON-serializable object taken
through its canonical serialization) and every valid 16-byte key and iv,
`sm4Decrypt` of `sm4Encrypt` yields the plaintext back. -/
theorem sm4_roundtrip (data : Sm4Data) (key iv : List Nat)
    (hkeyLen : key.length = 16) (hkeyLt : ∀ x ∈ key, x < 256)
    (hivLen : iv.length = 16) (hivLt : ∀ x ∈ iv, x < 256)
    (hdata : ∀ x ∈ sm4DataBytes data, x < 256) :
    sm4Decrypt (sm4Encrypt data key iv) key iv = sm4DataBytes data := by
  unfold sm4Encrypt sm4Decrypt
  have hpadLt : ∀ x ∈ pkcs5Pad (sm4DataBytes data), x < 256 := pkcs5Pad_lt hdata
  have hpdvd : 16 ∣ (pkcs5Pad (sm4DataBytes data)).length :=
    pkcs5Pad_dvd (sm4DataBytes data)
  have hblocks : ∀ p ∈ chunks16 (pkcs5Pad (sm4DataBytes data)),
      p.length = 16 ∧ ∀ x ∈ p, x < 256 := by
    intro p hp
    refine ⟨chunksF_length16 _ _ hpdvd p hp, ?_⟩
    intro x hx
    exact hpadLt x (chunksF_mem_mem _ _ p hp x hx)
  have hcipherLt : ∀ x ∈ (cbcEncrypt (sm4Rks key) iv
      (chunks16 (pkcs5Pad (sm4DataBytes data)))).flatten, x < 256 := by
    intro x hx
    rw [List.mem_flatten] at hx
    obtain ⟨c, hc, hxc⟩ := hx
    exact (cbcEncrypt_blocks (sm4Rks key) _ iv c hc).2 x hxc
  rw [hexDec_hexEnc hcipherLt]
  have hcipherBlocks : ∀ c ∈ cbcEncrypt (sm4Rks key) iv
      (chunks16 (pkcs5Pad (sm4DataBytes data))), c.length = 16 :=
    fun c hc => (cbcEncrypt_blocks (sm4Rks key) _ iv c hc).1
  have hcount : (cbcEncrypt (sm4Rks key) iv
        (chunks16 (pkcs5Pad (sm4DataBytes data)))).length ≤
      (cbcEncrypt (sm4Rks key) iv
        (chunks16 (pkcs5Pad (sm4DataBytes data)))).flatten.length := by
    rw [List.length_flatten]
    calc (cbcEncrypt (sm4Rks key) iv (chunks16 (pkcs5Pad (sm4DataBytes data)))).length
        = ((cbcEncrypt (sm4Rks key) iv
            (chunks16 (pkcs5Pad (sm4DataBytes data)))).map List.length).sum / 16 := by
          rw [List.map_congr_left (fun c hc => hcipherBlocks c hc)]
          simp [List.map_const]
      _ ≤ ((cbcEncrypt (sm4Rks key) iv
            (chunks16 (pkcs5Pad (sm4DataBytes data)))).map List.length).sum :=
          Nat.div_le_self _ _
  rw [chunks16_flatten_of_blocks hcipherBlocks hcount]
  rw [cbcDecrypt_cbcEncrypt (sm4Rks key) _ iv hblocks hivLen hivLt]
  rw [flatten_chunks16, pkcs5Unpad_pkcs5Pad]

/-- C1 witness: the round trip evaluated on a concrete plaintext, key, iv. -/
theorem sm4_roundtrip_witness :
    ([7, 7, 7, 7, 7, 7, 7, 7, 7, 7, 7, 7, 7, 7, 7, 7] : List Nat).length = 16 ∧
    (∀ x ∈ ([7, 7, 7, 7, 7, 7, 7, 7, 7, 7, 7, 7, 7, 7, 7, 7] : List Nat), x < 256) ∧
    ([9, 9, 9, 9, 9, 9, 9, 9, 9, 9, 9, 9, 9, 9, 9, 9] : List Nat).length = 16 ∧
    (∀ x ∈ ([9, 9, 9, 9, 9, 9, 9, 9, 9, 9, 9, 9, 9, 9, 9, 9] : List Nat), x < 256) ∧
    (∀ x ∈ sm4DataBytes (.str [104, 105, 33]), x < 256) ∧
    sm4Decrypt
      (sm4Encrypt (.str [104, 105, 33])
        [7, 7, 7, 7, 7, 7, 7, 7, 7, 7, 7, 7, 7, 7, 7, 7]
        [9, 9, 9, 9, 9, 9, 9, 9, 9, 9, 9, 9, 9, 9, 9, 9])
      [7, 7, 7, 7, 7, 7, 7, 7, 7, 7, 7, 7, 7, 7, 7, 7]
      [9, 9, 9, 9, 9, 9, 9, 9, 9, 9, 9, 9, 9, 9, 9, 9] =
      sm4DataBytes (.str [104, 105, 33]) :=
  ⟨rfl, by decide, rfl, by decide, by decide,
    sm4_roundtrip (.str [104, 105, 33]) _ _ rfl (by decide) rfl (by decide) (by decide)⟩

-- ==================== SHA-256 ====================
-- Modelled from the spec: `crypto.createHash('sha256')` is the Node
-- builtin, not repository code; the spec calls it "a 256-bit cryptographic
-- hash", embedded here as FIPS 180-4 SHA-256.

def sha256K : List Nat := [
  1116352408, 1899447441, 3049323471, 3921009573, 961987163, 1508970993, 2453635748, 2870763221,
  3624381080, 310598401, 607225278, 1426881987, 1925078388, 2162078206, 2614888103, 3248222580,
  3835390401, 4022224774, 264347078, 604807628, 770255983, 1249150122, 1555081692, 1996064986,
  2554220882, 2821834349, 2952996808, 3210313671, 3336571891, 3584528711, 113926993, 338241895,
  666307205, 773529912, 1294757372, 1396182291, 1695183700, 1986661051, 2177026350, 2456956037,
  2730485921, 2820302411, 3259730800, 3345764771, 3516065817, 3600352804, 4094571909, 275423344,
  430227734, 506948616, 659060556, 883997877, 958139571, 1322822218, 1537002063, 1747873779,
  1955562222, 2024104815, 2227730452, 2361852424, 2428436474, 2756734187, 3204031479, 3329325298
]

/-- Hash state: eight 32-bit words. -/
def Hash8 : Type :=
  Nat × Nat × Nat × Nat × Nat × Nat × Nat × Nat

def shaH0 : Hash8 :=
  (1779033703, 3144134277, 1013904242, 2773480762,
   1359893119, 2600822924, 528734635, 1541459225)

/-- Logical right shift on a 32-bit value. -/
def shr32 (x n : Nat) : Nat := (x % 4294967296) >>> n

/-- 32-bit right rotation. -/
def rotr32 (x n : Nat) : Nat := rotl32 x (32 - n % 32)

def shaCh (x y z : Nat) : Nat := (x &&& y) ^^^ (not32 x &&& z)

def shaMaj (x y z : Nat) : Nat := (x &&& y) ^^^ (x &&& z) ^^^ (y &&& z)

def bigSigma0 (x : Nat) : Nat := rotr32 x 2 ^^^ rotr32 x 13 ^^^ rotr32 x 22

def bigSigma1 (x : Nat) : Nat := rotr32 x 6 ^^^ rotr32 x 11 ^^^ rotr32 x 25

def smallSigma0 (x : Nat) : Nat := rotr32 x 7 ^^^ rotr32 x 18 ^^^ shr32 x 3

def smallSigma1 (x : Nat) : Nat := rotr32 x 17 ^^^ rotr32 x 19 ^^^ shr32 x 10

/-- Big-endian 8-byte rendering of the bit length. -/
def len8 (n : Nat) : List Nat :=
  [n / 72057594037927936 % 256, n / 281474976710656 % 256,
   n / 1099511627776 % 256, n / 4294967296 % 256,
   n / 16777216 % 256, n / 65536 % 256, n / 256 % 256, n % 256]

/-- Merkle-Damgard padding: 0x80, zeros to 56 mod 64, 8-byte bit length. -/
def shaPadMsg (msg : List Nat) : List Nat :=
  msg ++ 128 :: (List.replicate ((119 - msg.length % 64) % 64) 0 ++ len8 (msg.length * 8))

/-- The sixteen 32-bit words of a 64-byte block. -/
def blockWords (block : List Nat) : List Nat :=
  (chunksF 4 block.length block).map
    (fun c => combine4 (c.getD 0 0) (c.getD 1 0) (c.getD 2 0) (c.getD 3 0))

/-- Message-schedule extension (SHA-256): append `fuel` further words. -/
def extendW : Nat → List Nat → List Nat
  | 0, w => w
  | fuel + 1, w =>
    extendW fuel (w ++ [(smallSigma1 (w.getD (w.length - 2) 0) + w.getD (w.length - 7) 0 +
      smallSigma0 (w.getD (w.length - 15) 0) + w.getD (w.length - 16) 0) % 4294967296])

/-- One SHA-256 compression round. -/
def shaRound (st : Hash8) (kw : Nat × Nat) : Hash8 :=
  match st with
  | (a, b, c, d, e, f, g, h) =>
    let t1 := (h + bigSigma1 e + shaCh e f g + kw.1 + kw.2) % 4294967296
    let t2 := (bigSigma0 a + shaMaj a b c) % 4294967296
    ((t1 + t2) % 4294967296, a, b, c, (d + t1) % 4294967296, e, f, g)

/-- SHA-256 compression of one 64-byte block into the running state. -/
def shaCompress (st : Hash8) (block : List Nat) : Hash8 :=
  let w := extendW 48 (blockWords block)
  match st, (sha256K.zip w).foldl shaRound st with
  | (a, b, c, d, e, f, g, h), (a2, b2, c2, d2, e2, f2, g2, h2) =>
    ((a + a2) % 4294967296, (b + b2) % 4294967296, (c + c2) % 4294967296,
     (d + d2) % 4294967296, (e + e2) % 4294967296, (f + f2) % 4294967296,
     (g + g2) % 4294967296, (h + h2) % 4294967296)

/-- Big-endian bytes of the eight state words. -/
def hash8Bytes (st : Hash8) : List Nat :=
  match st with
  | (a, b, c, d, e, f, g, h) =>
    wordBytes a ++ wordBytes b ++ wordBytes c ++ wordBytes d ++
    wordBytes e ++ wordBytes f ++ wordBytes g ++ wordBytes h

/-- SHA-256 digest (32 bytes) of a byte message. -/
def sha256 (msg : List Nat) : List Nat :=
  hash8Bytes ((chunksF 64 (shaPadMsg msg).length (shaPadMsg msg)).foldl shaCompress shaH0)


theorem hash8Bytes_length (st : Hash8) : (hash8Bytes st).length = 32 := by
  obtain ⟨a, b, c, d, e, f, g, h⟩ := st
  rfl

theorem hash8Bytes_lt (st : Hash8) : ∀ x ∈ hash8Bytes st, x < 256 := by
  obtain ⟨a, b, c, d, e, f, g, h⟩ := st
  intro x hx
  simp only [hash8Bytes, List.mem_append] at hx
  rcases hx with ((((((hx | hx) | hx) | hx) | hx) | hx) | hx) | hx <;>
    exact wordBytes_lt _ x hx

theorem sha256_length (msg : List Nat) : (sha256 msg).length = 32 :=
  hash8Bytes_length _

theorem sha256_lt (msg : List Nat) : ∀ x ∈ sha256 msg, x < 256 :=
  hash8Bytes_lt _

/-- Uppercase-hex-digit test, as a Boolean predicate on character codes. -/
def isUpperHexDigit (c : Nat) : Bool :=
  decide ((48 ≤ c ∧ c ≤ 57) ∨ (65 ≤ c ∧ c ≤ 70))

-- ==================== generateAepSignature (src lines 51-54) ====================

/-- `generateAepSignature(timestamp, appKey, nonce, secret)`:
uppercase hex SHA-256 of `timestamp + appKey + nonce + secret + timestamp`. -/
def generateAepSignature (timestamp appKey nonce secret : List Nat) : List Nat :=
  upperAscii (hexEnc (sha256 (timestamp ++ appKey ++ nonce ++ secret ++ timestamp)))

/-- C3: the outer signature is the uppercase hex rendering of the 256-bit
hash of `timestamp + appKey + nonce + secret + timestamp` (secret
sandwiched, timestamp at both ends), and for all string inputs it is
exactly 64 uppercase hexadecimal characters.  (Determinism is inherent:
`generateAepSignature` is a pure function of its four arguments.) -/
theorem generateAepSignature_spec (timestamp appKey nonce secret : List Nat) :
    generateAepSignature timestamp appKey nonce secret =
      upperAscii (hexEnc (sha256 (timestamp ++ appKey ++ nonce ++ secret ++ timestamp))) ∧
    (generateAepSignature timestamp appKey nonce secret).length = 64 ∧
    (generateAepSignature timestamp appKey nonce secret).all isUpperHexDigit = true := by
  refine ⟨rfl, ?_, ?_⟩
  · unfold generateAepSignature
    rw [upperAscii_length, hexEnc_length, sha256_length]
  · rw [List.all_eq_true]
    intro c hc
    unfold generateAepSignature at hc
    have := upperAscii_of_lower_hex (hexEnc_lower (sha256_lt _)) c hc
    exact decide_eq_true this

-- ==================== SM3 hash ====================
-- Modelled from the spec: `sm3` comes from the external `sm-crypto`
-- package; the spec calls it "the national-standard hash used for this
-- layer", embedded here as GB/T 32905-2016 SM3.

def sm3IV : Hash8 :=
  (1937774191, 1226093241, 388252375, 3666478592,
   2842636476, 372324522, 3817729613, 2969243214)

def sm3T (j : Nat) : Nat := if j < 16 then 2043430169 else 2055708042

def sm3FF (j x y z : Nat) : Nat :=
  if j < 16 then x ^^^ y ^^^ z else (x &&& y) ||| (x &&& z) ||| (y &&& z)

def sm3GG (j x y z : Nat) : Nat :=
  if j < 16 then x ^^^ y ^^^ z else (x &&& y) ||| (not32 x &&& z)

def sm3P0 (x : Nat) : Nat := x ^^^ rotl32 x 9 ^^^ rotl32 x 17

def sm3P1 (x : Nat) : Nat := x ^^^ rotl32 x 15 ^^^ rotl32 x 23

/-- SM3 message-schedule extension: append `fuel` further words. -/
def sm3ExtendW : Nat → List Nat → List Nat
  | 0, w => w
  | fuel + 1, w =>
    sm3ExtendW fuel (w ++ [sm3P1 (w.getD (w.length - 16) 0 ^^^ w.getD (w.length - 9) 0 ^^^
      rotl32 (w.getD (w.length - 3) 0) 15) ^^^ rotl32 (w.getD (w.length - 13) 0) 7 ^^^
      w.getD (w.length - 6) 0])

/-- One SM3 compression round (`w` is the 68-word expanded schedule). -/
def sm3Round (w : List Nat) (st : Hash8) (j : Nat) : Hash8 :=
  match st with
  | (a, b, c, d, e, f, g, h) =>
    let ss1 := rotl32 ((rotl32 a 12 + e + rotl32 (sm3T j) j) % 4294967296) 7
    let ss2 := ss1 ^^^ rotl32 a 12
    let tt1 := (sm3FF j a b c + d + ss2 + (w.getD j 0 ^^^ w.getD (j + 4) 0)) % 4294967296
    let tt2 := (sm3GG j e f g + h + ss1 + w.getD j 0) % 4294967296
    (tt1, a, rotl32 b 9, c, sm3P0 tt2, e, rotl32 f 19, g)

/-- SM3 compression of one 64-byte block (final state xor, per standard). -/
def sm3Compress (st : Hash8) (block : List Nat) : Hash8 :=
  let w := sm3ExtendW 52 (blockWords block)
  match st, (List.range 64).foldl (sm3Round w) st with
  | (a, b, c, d, e, f, g, h), (a2, b2, c2, d2, e2, f2, g2, h2) =>
    (a ^^^ a2, b ^^^ b2, c ^^^ c2, d ^^^ d2, e ^^^ e2, f ^^^ f2, g ^^^ g2, h ^^^ h2)

/-- SM3 digest (32 bytes) of a byte message (padding as in SHA-256). -/
def sm3 (msg : List Nat) : List Nat :=
  hash8Bytes ((chunksF 64 (shaPadMsg msg).length (shaPadMsg msg)).foldl sm3Compress sm3IV)


-- ==================== generateKaSignature (src lines 75-78) ====================

/-- `generateKaSignature(nonce, timestamp)`: uppercase hex SM3 of
`timestamp + nonce + timestamp`, where the integer timestamp is coerced to
its decimal string by JavaScript string concatenation. -/
def generateKaSignature (nonce : List Nat) (timestamp : Nat) : List Nat :=
  upperAscii (hexEnc (sm3 (decDigits timestamp ++ nonce ++ decDigits timestamp)))

theorem sm3_length (msg : List Nat) : (sm3 msg).length = 32 :=
  hash8Bytes_length _

theorem sm3_lt (msg : List Nat) : ∀ x ∈ sm3 msg, x < 256 :=
  hash8Bytes_lt _

set_option maxRecDepth 100000 in
/-- C4: the inner signature is the uppercase hex rendering of the
national-standard hash of `timestamp + nonce + timestamp` (no secret, no
appKey), is 64 hex characters for every nonce and integer timestamp, and is
computed by a different function than the outer signature: on the
overlapping input (empty nonce/appKey/secret, timestamp 0) both layers hash
the same concatenated string `00` yet produce different signatures.
(Determinism is inherent: `generateKaSignature` is a pure function.) -/
theorem generateKaSignature_spec (nonce : List Nat) (timestamp : Nat) :
    generateKaSignature nonce timestamp =
      upperAscii (hexEnc (sm3 (decDigits timestamp ++ nonce ++ decDigits timestamp))) ∧
    (generateKaSignature nonce timestamp).length = 64 ∧
    (generateKaSignature nonce timestamp).all isUpperHexDigit = true ∧
    decDigits 0 ++ ([] : List Nat) ++ ([] : List Nat) ++ ([] : List Nat) ++ decDigits 0 =
      decDigits 0 ++ ([] : List Nat) ++ decDigits 0 ∧
    generateKaSignature [] 0 ≠ generateAepSignature (decDigits 0) [] [] [] := by
  refine ⟨rfl, ?_, ?_, by decide, by decide⟩
  · unfold generateKaSignature
    rw [upperAscii_length, hexEnc_length, sm3_length]
  · rw [List.all_eq_true]
    intro c hc
    unfold generateKaSignature at hc
    have := upperAscii_of_lower_hex (hexEnc_lower (sm3_lt _)) c hc
    exact decide_eq_true this

-- ==================== configuration (src lines 14-19) ====================

/-- `CONFIG.aepAppKey` = `'ysxt'`. -/
def configAepAppKey : List Nat := [121, 115, 120, 116]

/-- `CONFIG.aepSecret` = `'791685057029865473'`. -/
def configAepSecret : List Nat :=
  [55, 57, 49, 54, 56, 53, 48, 53, 55, 48, 50, 57, 56, 54, 53, 52, 55, 51]

/-- `CONFIG.baseUrl` = `'https://i.ka.sz.gov.cn'`. -/
def configBaseUrl : List Nat :=
  [104, 116, 116, 112, 115, 58, 47, 47, 105, 46, 107, 97, 46, 115, 122, 46,
   103, 111, 118, 46, 99, 110]

/-- `CONFIG.sm2PublicKey` (130 hex characters). -/
def configSm2PublicKey : List Nat :=
  [48, 52, 57, 53, 55, 68, 49, 55, 49, 67, 70, 57, 56, 54, 54, 70, 65, 68,
   52, 53, 54, 70, 67, 49, 56, 53, 55, 56, 69, 50, 70, 51, 49, 68, 48, 55,
   50, 52, 52, 69, 67, 57, 56, 50, 56, 69, 49, 55, 66, 57, 57, 48, 66, 66,
   55, 65, 54, 70, 49, 69, 70, 53, 50, 48, 50, 53, 53, 65, 55, 55, 54, 65,
   68, 65, 70, 67, 54, 52, 70, 68, 56, 66, 57, 69, 67, 65, 53, 57, 70, 52,
   49, 53, 57, 52, 48, 50, 68, 67, 69, 48, 65, 66, 54, 69, 51, 65, 66, 49,
   68, 55, 52, 68, 67, 68, 54, 48, 66, 51, 54, 51, 50, 56, 48, 70, 49, 52,
   52, 51, 69, 56]

-- ==================== encryptKeyWithSm2 (src lines 83-87) ====================

/-- `encryptKeyWithSm2(key, iv)`: SM2-encrypt `key + '&' + iv` under the
fixed public key, uppercase the ciphertext, and prepend the `'04'` marker.
The sm-crypto `sm2.doEncrypt` primitive is external to the repository and
is passed in as a function (plaintext, public key, cipher mode). -/
def encryptKeyWithSm2 (doEncrypt : List Nat → List Nat → Nat → List Nat)
    (key iv : List Nat) : List Nat :=
  [48, 52] ++ upperAscii (doEncrypt (key ++ 38 :: iv) configSm2PublicKey 1)

/-- Test that a character code is not a lowercase ASCII letter. -/
def notLowerAscii (c : Nat) : Bool := decide (¬ (97 ≤ c ∧ c ≤ 122))

theorem upperAscii_all_notLower (l : List Nat) :
    (upperAscii l).all notLowerAscii = true := by
  rw [List.all_eq_true]
  intro c hc
  simp only [upperAscii, List.mem_map] at hc
  obtain ⟨a, _, rfl⟩ := hc
  unfold notLowerAscii
  split <;> [exact decide_eq_true (by omega); exact decide_eq_true (by omega)]

/-- C6: the wrapped key is exactly the two-character `'04'` format marker
followed by the uppercased SM2 encryption of `key + '&' + iv` under the
fixed configured public key; the tail never contains a lowercase letter. -/
theorem encryptKeyWithSm2_spec (doEncrypt : List Nat → List Nat → Nat → List Nat)
    (key iv : List Nat) :
    encryptKeyWithSm2 doEncrypt key iv =
      [48, 52] ++ upperAscii (doEncrypt (key ++ 38 :: iv) configSm2PublicKey 1) ∧
    (encryptKeyWithSm2 doEncrypt key iv).take 2 = [48, 52] ∧
    (encryptKeyWithSm2 doEncrypt key iv).drop 2 =
      upperAscii (doEncrypt (key ++ 38 :: iv) configSm2PublicKey 1) ∧
    ((encryptKeyWithSm2 doEncrypt key iv).drop 2).all notLowerAscii = true :=
  ⟨rfl, rfl, rfl, upperAscii_all_notLower _⟩

-- ==================== header generation (src lines 59-70, 92-111) ====================

/-- The millisecond-precision decimal timestamp string
`(Date.now() / 1000).toFixed(3)` computed from a clock reading in ms. -/
def aepTimestampStr (nowMs : Nat) : List Nat :=
  decDigits (nowMs / 1000) ++ 46 :: padZeros 3 (decDigits (nowMs % 1000))

/-- The four `x-aep-*` headers. -/
structure AepHeaders where
  appkey : List Nat
  timestamp : List Nat
  nonce : List Nat
  signature : List Nat

/-- The four `x-ka-*` headers (plus the integer second timestamp they are
built from, and the ephemeral key material the caller keeps). -/
structure KaHeaders where
  timestampSec : Nat
  timestampHeader : List Nat
  nonce : List Nat
  signature : List Nat
  encKey : List Nat

/-- `generateAepHeaders()` (src lines 59-70): reads the wall clock once
(`Date.now()`, passed as `nowMs`), formats it to millisecond precision and
signs.  The nonce comes from `generateUUID()`, passed in as a value. -/
def generateAepHeaders (nowMs : Nat) (nonce : List Nat) : AepHeaders :=
  { appkey := configAepAppKey
    timestamp := aepTimestampStr nowMs
    nonce := nonce
    signature :=
      generateAepSignature (aepTimestampStr nowMs) configAepAppKey nonce configAepSecret }

/-- `generateKaHeaders()` (src lines 92-111): reads the wall clock again
(`Math.floor(Date.now() / 1000)`, passed as `nowMs`), signs, and wraps the
ephemeral key material (nonce, key, iv generated from randomness, passed
as values). -/
def generateKaHeaders (doEncrypt : List Nat → List Nat → Nat → List Nat)
    (nowMs : Nat) (nonce key iv : List Nat) : KaHeaders :=
  let timestamp := nowMs / 1000
  { timestampSec := timestamp
    timestampHeader := decDigits timestamp
    nonce := nonce
    signature := generateKaSignature nonce timestamp
    encKey := encryptKeyWithSm2 doEncrypt key iv }

/-- The clock usage of `request` (src lines 146-149): it first calls
`generateAepHeaders()` (which performs its own `Date.now()` read) and then
`generateKaHeaders()` (which performs a second `Date.now()` read).  `clock`
is the sequence of successive wall-clock readings in milliseconds. -/
def requestHeaderPack (doEncrypt : List Nat → List Nat → Nat → List Nat)
    (clock : List Nat) (nonce1 nonce2 key iv : List Nat) :
    AepHeaders × KaHeaders :=
  (generateAepHeaders (clock.getD 0 0) nonce1,
   generateKaHeaders doEncrypt (clock.getD 1 0) nonce2 key iv)

/-- C2 counterexample: the two signature layers do NOT derive their
timestamps from one shared clock capture.  With successive wall-clock
readings 999 ms and 1000 ms, the inner (KA) layer timestamp is 1 s, while
the reading the outer (AEP) layer used yields 0 s — a single-capture
implementation would have produced 0 for both. -/
theorem request_single_clock_read_counterexample :
    (requestHeaderPack (fun p _ _ => p) [999, 1000] [] [] [] []).2.timestampSec = 1 ∧
    (([999, 1000] : List Nat).getD 0 0) / 1000 = 0 ∧
    (requestHeaderPack (fun p _ _ => p) [999, 1000] [] [] [] []).2.timestampSec ≠
      (([999, 1000] : List Nat).getD 0 0) / 1000 := by
  refine ⟨rfl, rfl, ?_⟩
  decide

set_option maxHeartbeats 1000000 in
/-- C2 amended: each call to `request` performs two separate consecutive
wall-clock reads — the outer layer formats the first reading to
millisecond-precision decimal, the inner layer floors the second reading
to integer seconds; the two layers agree only when the two reads happen to
fall as a single instant. -/
theorem request_two_clock_reads (doEncrypt : List Nat → List Nat → Nat → List Nat)
    (c0 c1 : Nat) (rest : List Nat) (nonce1 nonce2 key iv : List Nat) :
    (requestHeaderPack doEncrypt (c0 :: c1 :: rest) nonce1 nonce2 key iv).1.timestamp =
      aepTimestampStr c0 ∧
    (requestHeaderPack doEncrypt (c0 :: c1 :: rest) nonce1 nonce2 key iv).2.timestampSec =
      c1 / 1000 ∧
    (requestHeaderPack doEncrypt (c0 :: c1 :: rest) nonce1 nonce2 key iv).2.timestampHeader =
      decDigits (c1 / 1000) ∧
    (requestHeaderPack doEncrypt (c0 :: c1 :: rest) nonce1 nonce2 key iv).1.signature =
      generateAepSignature (aepTimestampStr c0) configAepAppKey nonce1 configAepSecret ∧
    (requestHeaderPack doEncrypt (c0 :: c1 :: rest) nonce1 nonce2 key iv).2.signature =
      generateKaSignature nonce2 (c1 / 1000) :=
  ⟨rfl, rfl, rfl, rfl, rfl⟩

-- ==================== randomHex (src lines 37-44) ====================

/-- The `while` loop of `randomHex`: each iteration appends the hex digits
contributed by one random draw — `(Math.random() * 1e10).toString(16)`
truncated at the decimal point, which is the hex rendering of the integer
part when the drawn value has a fractional part, and the EMPTY string when
the drawn value is an exact integer (`indexOf('.')` is -1 and
`substring(0, -1)` clamps to empty).  `draws i` is the contribution of the
i-th draw; the loop is fuelled since the JavaScript loop is unbounded. -/
def randomHexLoop (draws : Nat → List Nat) (len : Nat) :
    Nat → Nat → List Nat → Option (List Nat)
  | 0, _, acc => if acc.length < len then none else some acc
  | fuel + 1, i, acc =>
    if acc.length < len then randomHexLoop draws len fuel (i + 1) (acc ++ draws i)
    else some acc

/-- `randomHex(length)`: run the loop, then
`result.slice(0, length).padStart(length, '0')`. -/
def randomHexF (draws : Nat → List Nat) (len fuel : Nat) : Option (List Nat) :=
  (randomHexLoop draws len fuel 0 []).map (fun r => padZeros len (r.take len))

theorem padZeros_take_length (len : Nat) (s : List Nat) :
    (padZeros len (s.take len)).length = len := by
  simp only [padZeros, List.length_append, List.length_replicate, List.length_take]
  omega

theorem randomHexLoop_total (draws : Nat → List Nat) (len : Nat)
    (h : ∀ i, draws i ≠ []) :
    ∀ (fuel i : Nat) (acc : List Nat), len ≤ acc.length + fuel →
      ∃ r, randomHexLoop draws len fuel i acc = some r := by
  intro fuel
  induction fuel with
  | zero =>
    intro i acc hle
    refine ⟨acc, ?_⟩
    unfold randomHexLoop
    rw [if_neg (by omega)]
  | succ f ih =>
    intro i acc hle
    by_cases hc : acc.length < len
    · have hdraw : 1 ≤ (draws i).length := by
        rcases hd : draws i with _ | ⟨x, r⟩
        · exact absurd hd (h i)
        · simp
      obtain ⟨r, hr⟩ := ih (i + 1) (acc ++ draws i)
        (by rw [List.length_append]; omega)
      refine ⟨r, ?_⟩
      unfold randomHexLoop
      rw [if_pos hc]
      exact hr
    · refine ⟨acc, ?_⟩
      unfold randomHexLoop
      rw [if_neg hc]

theorem randomHexLoop_stuck (len : Nat) (hlen : 1 ≤ len) :
    ∀ (fuel i : Nat), randomHexLoop (fun _ => []) len fuel i [] = none := by
  intro fuel
  induction fuel with
  | zero =>
    intro i
    unfold randomHexLoop
    rw [if_pos (by simpa using hlen)]
  | succ f ih =>
    intro i
    unfold randomHexLoop
    rw [if_pos (by simpa using hlen)]
    simpa using ih (i + 1)

/-- C7 counterexample: the claim quantifies over EVERY sequence of
underlying random draws, but a draw sequence whose values are all exact
integers (possible for `Math.random()`, e.g. 0 or 0.5, whose scaled hex
rendering has no decimal point) contributes no characters, so the loop
never terminates and `randomHex` returns nothing at any fuel — here
evaluated at fuel 100 for the requested length 32. -/
theorem randomHex_counterexample :
    randomHexF (fun _ => []) 32 100 = none := by decide

/-- C7 amended: whenever `randomHex(len)` terminates its result is exactly
`len` characters, regardless of how wide or narrow the individual draw
contributions are (slice + padStart normalise the length); it does
terminate within `len` iterations whenever every draw contributes at least
one character (every non-integer draw does); but with all-integer draws
(empty contributions) it returns nothing at any fuel. -/
theorem randomHex_spec (draws : Nat → List Nat) (len fuel : Nat) :
    (∀ r, randomHexF draws len fuel = some r → r.length = len) ∧
    ((∀ i, draws i ≠ []) → ∃ r, randomHexF draws len len = some r ∧ r.length = len) ∧
    (1 ≤ len → ∀ fuel2, randomHexF (fun _ => []) len fuel2 = none) := by
  refine ⟨?_, ?_, ?_⟩
  · intro r hr
    unfold randomHexF at hr
    rcases hl : randomHexLoop draws len fuel 0 [] with _ | a
    · rw [hl] at hr; simp at hr
    · rw [hl] at hr
      simp at hr
      rw [← hr]
      exact padZeros_take_length len a
  · intro h
    obtain ⟨r, hr⟩ := randomHexLoop_total draws len h len 0 [] (by simp)
    refine ⟨padZeros len (r.take len), ?_, padZeros_take_length len r⟩
    unfold randomHexF
    rw [hr]
    rfl
  · intro hlen fuel2
    unfold randomHexF
    rw [randomHexLoop_stuck len hlen fuel2 0]
    rfl

/-- C7 witness. -/
theorem randomHex_spec_witness :
    (∀ i : Nat, (fun _ : Nat => [48]) i ≠ ([] : List Nat)) ∧
    (∃ r, randomHexF (fun _ => [48]) 32 32 = some r ∧ r.length = 32) ∧
    (1 ≤ 32 ∧ randomHexF (fun _ => []) 32 77 = none) := by
  refine ⟨fun i => by simp, ?_, by norm_num, ?_⟩
  · exact (randomHex_spec (fun _ => [48]) 32 32).2.1 (fun i => by simp)
  · exact (randomHex_spec (fun _ => [48]) 32 32).2.2 (by norm_num) 77

-- ==================== network call configurations ====================

/-- The argument object passed to `axios({...})`, as far as the spec
constrains it: method, url, timeout, responseType. -/
structure AxiosConfig where
  method : List Nat
  url : List Nat
  timeout : Option Nat
  responseType : Option (List Nat)

/-- `'/local/ika-api'`. -/
def apiRootPath : List Nat :=
  [47, 108, 111, 99, 97, 108, 47, 105, 107, 97, 45, 97, 112, 105]

/-- `'POST'`. -/
def postMethod : List Nat := [80, 79, 83, 84]

/-- The axios call of the CCTV client's `request` (src lines 160-166):
POST, 30000 ms timeout. -/
def requestCctvAxiosConfig (path : List Nat) : AxiosConfig :=
  { method := postMethod
    url := configBaseUrl ++ apiRootPath ++ path
    timeout := some 30000
    responseType := none }

/-- The axios call of the encryption client's `request` (src lines
576-582): caller-chosen method, 30000 ms timeout. -/
def requestEncAxiosConfig (path method : List Nat) : AxiosConfig :=
  { method := method
    url := configBaseUrl ++ apiRootPath ++ path
    timeout := some 30000
    responseType := none }

/-- The axios call of `downloadFile` (src lines 645-651): POST to
`/file/download`, binary response, and NO timeout field. -/
def downloadFileAxiosConfig : AxiosConfig :=
  { method := postMethod
    url := configBaseUrl ++ apiRootPath ++
      [47, 102, 105, 108, 101, 47, 100, 111, 119, 110, 108, 111, 97, 100]
    timeout := none
    responseType := some [97, 114, 114, 97, 121, 98, 117, 102, 102, 101, 114] }

/-- C8 counterexample: the file-download network call is issued with NO
timeout (axios then defaults to unbounded), so not every network call is
bounded by 30 seconds as claimed. -/
theorem download_timeout_counterexample :
    downloadFileAxiosConfig.timeout = none ∧
    downloadFileAxiosConfig.timeout ≠ some 30000 :=
  ⟨rfl, fun h => Option.noConfusion h⟩

/-- C8 amended: both ordinary encrypted request calls set a 30-second
timeout; the binary file-download call sets no timeout at all. -/
theorem axios_call_timeouts (path method : List Nat) :
    (requestCctvAxiosConfig path).timeout = some 30000 ∧
    (requestEncAxiosConfig path method).timeout = some 30000 ∧
    downloadFileAxiosConfig.timeout = none :=
  ⟨rfl, rfl, rfl⟩

-- ==================== JavaScript value helpers ====================

/-- Object field lookup (`obj.field`); `none` models `undefined`, which is
also what property access on a non-object primitive yields. -/
def lookupField : List (List Nat × Json) → List Nat → Option Json
  | [], _ => none
  | (k, v) :: fs, key => if k = key then some v else lookupField fs key

def getField (j : Json) (key : List Nat) : Option Json :=
  match j with
  | .jobj fs => lookupField fs key
  | _ => none

/-- JavaScript truthiness of a JSON value. -/
def truthy : Json → Bool
  | .jnull => false
  | .jbool b => b
  | .jnum n => decide (n ≠ 0)
  | .jstr s => decide (s ≠ [])
  | .jarr _ => true
  | .jobj _ => true

def optTruthy : Option Json → Bool
  | none => false
  | some v => truthy v

def isArray : Json → Bool
  | .jarr _ => true
  | _ => false

/-- Non-empty-string test: `typeof x === 'string' && x.length > 0`. -/
def isNonemptyStr : Json → Bool
  | .jstr (_ :: _) => true
  | _ => false

-- ==================== response handling (src lines 168-173 and 591-602) ====================

/-- The error outcomes the response path can produce. -/
inductive ReqError where
  | jsonParseError : ReqError

/-- Response handling of the CCTV client's `request` (src lines 168-173):
a non-empty string body is decrypted with the request's ephemeral key/iv
and fed to `JSON.parse`; there is NO try/catch, so a parse failure
propagates as a thrown error.  Anything else is returned unchanged.
`parse` models the external `JSON.parse` builtin (`none` = it throws). -/
def processResponseCctv (parse : List Nat → Option Json) (key iv : List Nat) :
    Json → Except ReqError Json
  | .jstr (c :: rest) =>
    match parse (sm4Decrypt (c :: rest) key iv) with
    | some j => .ok j
    | none => .error .jsonParseError
  | body => .ok body

/-- Response handling of the encryption client's `request` (src lines
591-602): same decryption, but `JSON.parse` is wrapped in try/catch and a
parse failure falls back to the raw decrypted string. -/
def processResponseEnc (parse : List Nat → Option Json) (key iv : List Nat) :
    Json → Json
  | .jstr (c :: rest) =>
    match parse (sm4Decrypt (c :: rest) key iv) with
    | some j => j
    | none => .jstr (sm4Decrypt (c :: rest) key iv)
  | body => body

/-- C5 counterexample: the claim says a parse failure yields the raw
decrypted string, but the CCTV client's `request` has no try/catch around
`JSON.parse`: on a non-empty string body whose decryption does not parse,
it throws instead of returning the raw decrypted string. -/
theorem response_parse_failure_counterexample :
    processResponseCctv (fun _ => none) [0] [0] (.jstr [48]) =
      .error .jsonParseError ∧
    processResponseCctv (fun _ => none) [0] [0] (.jstr [48]) ≠
      .ok (.jstr (sm4Decrypt [48] [0] [0])) := by
  refine ⟨rfl, ?_⟩
  intro h
  exact Except.noConfusion h

/-- C5 amended: for every response body — in both `request` variants — an
empty or non-string body is returned unchanged with no decryption; a
non-empty string body is decrypted with the same ephemeral key/iv and
JSON-parsed, a successful parse yielding the parsed value in both
variants; on parse failure the encryption client's variant returns the raw
decrypted string, while the CCTV client's variant propagates the error. -/
theorem response_handling_spec (parse : List Nat → Option Json) (key iv : List Nat) :
    (∀ body : Json, isNonemptyStr body = false →
      processResponseCctv parse key iv body = .ok body ∧
      processResponseEnc parse key iv body = body) ∧
    (∀ s : List Nat, s ≠ [] → parse (sm4Decrypt s key iv) = none →
      processResponseCctv parse key iv (.jstr s) = .error .jsonParseError ∧
      processResponseEnc parse key iv (.jstr s) = .jstr (sm4Decrypt s key iv)) ∧
    (∀ (s : List Nat) (j : Json), s ≠ [] → parse (sm4Decrypt s key iv) = some j →
      processResponseCctv parse key iv (.jstr s) = .ok j ∧
      processResponseEnc parse key iv (.jstr s) = j) := by
  refine ⟨?_, ?_, ?_⟩
  · intro body hb
    cases body with
    | jstr s =>
      cases s with
      | nil => exact ⟨rfl, rfl⟩
      | cons c rest => simp [isNonemptyStr] at hb
    | jnull => exact ⟨rfl, rfl⟩
    | jbool b => exact ⟨rfl, rfl⟩
    | jnum n => exact ⟨rfl, rfl⟩
    | jarr xs => exact ⟨rfl, rfl⟩
    | jobj fs => exact ⟨rfl, rfl⟩
  · intro s hs hp
    rcases s with _ | ⟨c, rest⟩
    · exact absurd rfl hs
    · simp [processResponseCctv, processResponseEnc, hp]
  · intro s j hs hp
    rcases s with _ | ⟨c, rest⟩
    · exact absurd rfl hs
    · simp [processResponseCctv, processResponseEnc, hp]

/-- C5 witness: the three branches exercised at concrete inputs. -/
theorem response_handling_spec_witness :
    (isNonemptyStr (.jnum 5) = false ∧
      processResponseCctv (fun _ => none) [0] [0] (.jnum 5) = .ok (.jnum 5) ∧
      processResponseEnc (fun _ => none) [0] [0] (.jnum 5) = .jnum 5) ∧
    (([48] : List Nat) ≠ [] ∧
      (fun _ : List Nat => (none : Option Json)) (sm4Decrypt [48] [0] [0]) = none ∧
      processResponseCctv (fun _ => none) [0] [0] (.jstr [48]) = .error .jsonParseError ∧
      processResponseEnc (fun _ => none) [0] [0] (.jstr [48]) =
        .jstr (sm4Decrypt [48] [0] [0])) ∧
    (([48] : List Nat) ≠ [] ∧
      (fun _ : List Nat => some Json.jnull) (sm4Decrypt [48] [0] [0]) = some .jnull ∧
      processResponseCctv (fun _ => some .jnull) [0] [0] (.jstr [48]) = .ok .jnull ∧
      processResponseEnc (fun _ => some .jnull) [0] [0] (.jstr [48]) = .jnull) := by
  obtain ⟨he1, he2⟩ :=
    (response_handling_spec (fun _ => none) [0] [0]).1 (.jnum 5) rfl
  obtain ⟨hn1, hn2⟩ :=
    (response_handling_spec (fun _ => none) [0] [0]).2.1 [48] (by simp) rfl
  obtain ⟨hs1, hs2⟩ :=
    (response_handling_spec (fun _ => some .jnull) [0] [0]).2.2 [48] .jnull (by simp) rfl
  exact ⟨⟨rfl, he1, he2⟩, ⟨by simp, rfl, hn1, hn2⟩, ⟨by simp, rfl, hs1, hs2⟩⟩

-- ==================== batch loops (src lines 227-303) ====================

/-- A camera record parsed from `entryAndExitJson`. -/
structure Camera where
  name : List Nat
  code : List Nat
  ctype : List Nat

/-- A per-camera result entry pushed by `getPortCCTVImages`. -/
structure CameraEntry where
  name : List Nat
  code : List Nat
  typeLabel : List Nat
  imageUrl : Json
  error : Option (List Nat)

/-- `'出境'` (exit). -/
def exitLabel : List Nat := [229, 135, 186, 229, 162, 131]

/-- `'入境'` (entry). -/
def entryLabel : List Nat := [229, 133, 165, 229, 162, 131]

/-- `camera.type === '1' ? '出境' : '入境'`. -/
def cameraTypeLabel (t : List Nat) : List Nat :=
  if t = [49] then exitLabel else entryLabel

def dataKey : List Nat := [100, 97, 116, 97]

def picUrlKey : List Nat := [112, 105, 99, 85, 114, 108]

def videoPicKey : List Nat := [118, 105, 100, 101, 111, 80, 105, 99]

/-- Optional chaining `pic.data?.picUrl`: undefined when `data` is null or
undefined, else the `picUrl` field (undefined on non-objects). -/
def optChainPicUrl (pic : Json) : Option Json :=
  match getField pic dataKey with
  | none => none
  | some .jnull => none
  | some dv => getField dv picUrlKey

/-- `x || null` on a possibly-undefined value. -/
def jsOrNull (b : Option Json) : Json :=
  match b with
  | some w => if truthy w then w else .jnull
  | none => .jnull

/-- `a || b || null`. -/
def jsOr2Null (a b : Option Json) : Json :=
  match a with
  | some v => if truthy v then v else jsOrNull b
  | none => jsOrNull b

/-- Message of the TypeError thrown by property access on null. -/
def nullAccessMsg : List Nat := [110, 117, 108, 108]

/-- `picResult.data?.picUrl || picResult.videoPic || null`, including the
JavaScript behaviour that property access on a null `picResult` throws
(caught by the surrounding try). -/
def imageUrlOf (pic : Json) : Except (List Nat) Json :=
  match pic with
  | .jnull => .error nullAccessMsg
  | _ => .ok (jsOr2Null (optChainPicUrl pic) (getField pic videoPicKey))

/-- The entry pushed for one camera: the body of the per-camera
try/catch in `getPortCCTVImages` (src lines 247-265).  `outcome` is the
result of the awaited `getMonitorPic` call. -/
def cameraEntryOf (camera : Camera) (outcome : Except (List Nat) Json) : CameraEntry :=
  match outcome with
  | .error msg =>
    { name := camera.name, code := camera.code,
      typeLabel := cameraTypeLabel camera.ctype, imageUrl := .jnull,
      error := some msg }
  | .ok pic =>
    match imageUrlOf pic with
    | .error msg =>
      { name := camera.name, code := camera.code,
        typeLabel := cameraTypeLabel camera.ctype, imageUrl := .jnull,
        error := some msg }
    | .ok u =>
      { name := camera.name, code := camera.code,
        typeLabel := cameraTypeLabel camera.ctype, imageUrl := u,
        error := none }

/-- The `for (const camera of entryAndExitList)` loop of
`getPortCCTVImages`: every iteration pushes exactly one entry, successes
and failures alike. -/
def getPortCCTVImagesLoop (call : Camera → Except (List Nat) Json) :
    List Camera → List CameraEntry
  | [] => []
  | c :: cs => cameraEntryOf c (call c) :: getPortCCTVImagesLoop call cs

/-- A port as consumed by the outer loop. -/
structure Port where
  id : Json
  portName : List Nat

/-- A per-port aggregated result, as pushed by `getAllPortsCCTV`. -/
structure PortResult where
  portId : Json
  portName : List Nat
  cameras : List CameraEntry
  error : Option (List Nat)

/-- The entry pushed for one port: the body of the per-port try/catch in
`getAllPortsCCTV` (src lines 287-300). -/
def portResultOf (port : Port) (outcome : Except (List Nat) PortResult) : PortResult :=
  match outcome with
  | .ok r => r
  | .error msg =>
    { portId := port.id, portName := port.portName, cameras := [],
      error := some msg }

/-- The `for (const port of ports)` loop of `getAllPortsCCTV`. -/
def getAllPortsCCTVLoop (fetch : Port → Except (List Nat) PortResult) :
    List Port → List PortResult
  | [] => []
  | p :: ps => portResultOf p (fetch p) :: getAllPortsCCTVLoop fetch ps

theorem getPortCCTVImagesLoop_eq_map (call : Camera → Except (List Nat) Json) :
    ∀ cams : List Camera,
      getPortCCTVImagesLoop call cams = cams.map (fun c => cameraEntryOf c (call c)) := by
  intro cams
  induction cams with
  | nil => rfl
  | cons c cs ih => simp [getPortCCTVImagesLoop, ih]

theorem getAllPortsCCTVLoop_eq_map (fetch : Port → Except (List Nat) PortResult) :
    ∀ ports : List Port,
      getAllPortsCCTVLoop fetch ports = ports.map (fun p => portResultOf p (fetch p)) := by
  intro ports
  induction ports with
  | nil => rfl
  | cons p ps ih => simp [getAllPortsCCTVLoop, ih]

/-- C9: in both batch loops every item yields exactly one recorded entry
(the loops are total maps over the items — no per-item error escapes the
loop), each entry depends only on its own item's outcome, and a failing
item is recorded as an error entry (null image / empty camera list) while
all sibling entries are unaffected. -/
theorem batch_isolation (call : Camera → Except (List Nat) Json)
    (fetch : Port → Except (List Nat) PortResult)
    (cams : List Camera) (ports : List Port) :
    (getPortCCTVImagesLoop call cams).length = cams.length ∧
    getPortCCTVImagesLoop call cams = cams.map (fun c => cameraEntryOf c (call c)) ∧
    (∀ (cam : Camera) (msg : List Nat), cameraEntryOf cam (.error msg) =
      { name := cam.name, code := cam.code,
        typeLabel := cameraTypeLabel cam.ctype, imageUrl := .jnull,
        error := some msg }) ∧
    (getAllPortsCCTVLoop fetch ports).length = ports.length ∧
    getAllPortsCCTVLoop fetch ports = ports.map (fun p => portResultOf p (fetch p)) ∧
    (∀ (port : Port) (msg : List Nat), portResultOf port (.error msg) =
      { portId := port.id, portName := port.portName, cameras := [],
        error := some msg }) := by
  refine ⟨?_, getPortCCTVImagesLoop_eq_map call cams, fun cam msg => rfl,
    ?_, getAllPortsCCTVLoop_eq_map fetch ports, fun port msg => rfl⟩
  · rw [getPortCCTVImagesLoop_eq_map call cams, List.length_map]
  · rw [getAllPortsCCTVLoop_eq_map fetch ports, List.length_map]

-- ==================== getPortList (src lines 182-188) ====================

def rowsKey : List Nat := [114, 111, 119, 115]

/-- The value the CCTV client's `getPortList` returns from a successfully
decrypted response: `result.rows || []`.  As everywhere in JavaScript,
property access on a null `result` throws (surfaced as an error and thus
not a successful call). -/
def getPortListResult (result : Json) : Except (List Nat) Json :=
  match result with
  | .jnull => .error nullAccessMsg
  | _ =>
    .ok (match getField result rowsKey with
         | some rv => if truthy rv then rv else .jarr []
         | none => .jarr [])

/-- Array test on the successful result (`false` for an error outcome). -/
def isArrayOk (r : Except (List Nat) Json) : Bool :=
  match r with
  | .ok v => isArray v
  | .error _ => false

/-- C10 counterexample: if the decrypted response carries a truthy
non-array `rows` field (here the number 5), `result.rows || []` returns
it as-is, so `getPortList` returns a non-array value on a successful
call, contradicting the claim. -/
theorem getPortList_counterexample :
    getPortListResult (.jobj [(rowsKey, .jnum 5)]) = .ok (.jnum 5) ∧
    isArrayOk (getPortListResult (.jobj [(rowsKey, .jnum 5)])) = false :=
  ⟨rfl, rfl⟩

/-- C10 amended: on a successful call, `getPortList` returns `result.rows`
whenever that field is present and truthy and the empty array otherwise;
in particular the result is an array whenever `rows` is absent or falsy
(empty array) or itself an array — but a truthy non-array `rows` value is
passed through (and a null response makes the field access itself throw). -/
theorem getPortList_rows_spec (result : Json) (hnn : result ≠ .jnull) :
    (getField result rowsKey = none → getPortListResult result = .ok (.jarr [])) ∧
    (∀ rv, getField result rowsKey = some rv → truthy rv = true →
      getPortListResult result = .ok rv) ∧
    (∀ rv, getField result rowsKey = some rv → truthy rv = false →
      getPortListResult result = .ok (.jarr [])) ∧
    (∀ rv, getField result rowsKey = some rv → isArray rv = true →
      isArrayOk (getPortListResult result) = true) ∧
    getPortListResult .jnull = .error nullAccessMsg := by
  have hshape : getPortListResult result =
      .ok (match getField result rowsKey with
           | some rv => if truthy rv then rv else .jarr []
           | none => .jarr []) := by
    rcases result with _ | b | n | s | xs | fs
    · exact absurd rfl hnn
    all_goals rfl
  refine ⟨?_, ?_, ?_, ?_, rfl⟩
  · intro h
    rw [hshape, h]
  · intro rv h ht
    rw [hshape, h]
    simp [ht]
  · intro rv h ht
    rw [hshape, h]
    simp [ht]
  · intro rv h ha
    rcases rv with _ | _ | _ | _ | xs | _ <;> simp [isArray] at ha ⊢
    rw [hshape, h]
    simp [truthy, isArrayOk, isArray]

/-- C10 witness: the branches exercised at concrete responses. -/
theorem getPortList_rows_spec_witness :
    ((Json.jobj []) ≠ .jnull ∧
      getField (.jobj []) rowsKey = none ∧
      getPortListResult (.jobj []) = .ok (.jarr [])) ∧
    ((Json.jobj [(rowsKey, .jarr [.jnum 1])]) ≠ .jnull ∧
      getField (.jobj [(rowsKey, .jarr [.jnum 1])]) rowsKey = some (.jarr [.jnum 1]) ∧
      truthy (.jarr [.jnum 1]) = true ∧
      getPortListResult (.jobj [(rowsKey, .jarr [.jnum 1])]) = .ok (.jarr [.jnum 1])) ∧
    ((Json.jobj [(rowsKey, .jnull)]) ≠ .jnull ∧
      getField (.jobj [(rowsKey, .jnull)]) rowsKey = some .jnull ∧
      truthy Json.jnull = false ∧
      getPortListResult (.jobj [(rowsKey, .jnull)]) = .ok (.jarr [])) ∧
    (isArray (.jarr [.jnum 1]) = true ∧
      isArrayOk (getPortListResult (.jobj [(rowsKey, .jarr [.jnum 1])])) = true) := by
  refine ⟨⟨fun h => Json.noConfusion h, rfl,
      (getPortList_rows_spec (.jobj []) (fun h => Json.noConfusion h)).1 rfl⟩,
    ⟨fun h => Json.noConfusion h, rfl, rfl,
      (getPortList_rows_spec (.jobj [(rowsKey, .jarr [.jnum 1])])
        (fun h => Json.noConfusion h)).2.1 _ rfl rfl⟩,
    ⟨fun h => Json.noConfusion h, rfl, rfl,
      (getPortList_rows_spec (.jobj [(rowsKey, .jnull)])
        (fun h => Json.noConfusion h)).2.2.1 _ rfl rfl⟩,
    ⟨rfl, (getPortList_rows_spec (.jobj [(rowsKey, .jarr [.jnum 1])])
        (fun h => Json.noConfusion h)).2.2.2.1 _ rfl rfl⟩⟩
